import Mathlib

/-!
Shallow embedding of the LidarBasedGridMapping occupancy-grid pipeline
(`src/occupancy.py`, `src/map_operations.py`) and verification of the
specification claims about it.

Conventions of the embedding:
* Python floats are modelled as real numbers (`ℝ`); the Bresenham error
  accumulator, which only ever holds integer multiples of one half, is
  modelled exactly as a rational (`ℚ`).
* numpy array indexing is modelled explicitly: an integer index `i` into a
  dimension of size `d` resolves to `i` when `0 ≤ i < d`, wraps to `d + i`
  when `-d ≤ i < 0`, and raises `IndexError` otherwise.  Fallible indexing
  is an `Option`.
* The mutable grid is passed as explicit state; an in-place update loop
  becomes a fold that stops at the first indexing error, returning the
  partially mutated grid together with a success flag (mirroring a Python
  exception propagating out of the loop after earlier iterations already
  wrote to the array).
-/

namespace LidarGrid

/-- `OccupancyGrid.add_prob` (occupancy.py lines 41-49):
`A, B = p, 1 - p`; returns `log(A/B)` when not occupied, `log(B/A)` when
occupied. -/
noncomputable def add_prob (p : ℝ) (occupied : Bool) : ℝ :=
  if occupied then Real.log ((1 - p) / p) else Real.log (p / (1 - p))

/-- The x-major loop of `OccupancyGrid.bresenham_line` (occupancy.py lines
67-75): `while x != x1: append (x,y); err -= dy; if err < 0 then y += sy;
err += dx; x += sx`, followed by appending the final point.  The loop is
embedded with an explicit fuel argument; the top-level function supplies
fuel `|x1 - x0|`, which is exactly the number of iterations the Python
loop performs. -/
def bresLoopX (x1 sx sy : ℤ) (dx dy : ℚ) : ℕ → ℤ → ℤ → ℚ → List (ℤ × ℤ)
  | 0, x, y, _ => [(x, y)]
  | Nat.succ n, x, y, err =>
      if x = x1 then [(x, y)]
      else
        let e := err - dy
        if e < 0 then (x, y) :: bresLoopX x1 sx sy dx dy n (x + sx) (y + sy) (e + dx)
        else (x, y) :: bresLoopX x1 sx sy dx dy n (x + sx) y e

/-- The y-major loop of `OccupancyGrid.bresenham_line` (occupancy.py lines
76-84): the mirror image of `bresLoopX` with the roles of the axes
swapped. -/
def bresLoopY (y1 sy sx : ℤ) (dy dx : ℚ) : ℕ → ℤ → ℤ → ℚ → List (ℤ × ℤ)
  | 0, x, y, _ => [(x, y)]
  | Nat.succ n, x, y, err =>
      if y = y1 then [(x, y)]
      else
        let e := err - dx
        if e < 0 then (x, y) :: bresLoopY y1 sy sx dy dx n (x + sx) (y + sy) (e + dy)
        else (x, y) :: bresLoopY y1 sy sx dy dx n x (y + sy) e

/-- `OccupancyGrid.bresenham_line` (occupancy.py lines 51-86):
`dx = |x1-x0|`, `dy = |y1-y0|`, `sx/sy` the step signs, `err = dmajor/2`,
then the x-major loop when `dx > dy` and the y-major loop otherwise. -/
def bresenham_line (x0 y0 x1 y1 : ℤ) : List (ℤ × ℤ) :=
  let dx : ℕ := (x1 - x0).natAbs
  let dy : ℕ := (y1 - y0).natAbs
  let sx : ℤ := if x0 > x1 then -1 else 1
  let sy : ℤ := if y0 > y1 then -1 else 1
  if dy < dx then bresLoopX x1 sx sy dx dy dx x0 y0 ((dx : ℚ) / 2)
  else bresLoopY y1 sy sx dy dx dy x0 y0 ((dy : ℚ) / 2)

/-- 8-connectivity of two grid cells: they differ by at most one in each
coordinate. -/
def adj (a b : ℤ × ℤ) : Prop :=
  (b.1 - a.1).natAbs ≤ 1 ∧ (b.2 - a.2).natAbs ≤ 1

instance (a b : ℤ × ℤ) : Decidable (adj a b) := by
  unfold adj
  infer_instance

/-- Unfolding equation for one iteration of the x-major loop. -/
theorem bresLoopX_succ (x1 sx sy : ℤ) (dx dy : ℚ) (n : ℕ) (x y : ℤ) (err : ℚ) :
    bresLoopX x1 sx sy dx dy (n + 1) x y err =
      if x = x1 then [(x, y)]
      else if err - dy < 0 then
        (x, y) :: bresLoopX x1 sx sy dx dy n (x + sx) (y + sy) (err - dy + dx)
      else (x, y) :: bresLoopX x1 sx sy dx dy n (x + sx) y (err - dy) := rfl

/-- Unfolding equation for one iteration of the y-major loop. -/
theorem bresLoopY_succ (y1 sy sx : ℤ) (dy dx : ℚ) (n : ℕ) (x y : ℤ) (err : ℚ) :
    bresLoopY y1 sy sx dy dx (n + 1) x y err =
      if y = y1 then [(x, y)]
      else if err - dx < 0 then
        (x, y) :: bresLoopY y1 sy sx dy dx n (x + sx) (y + sy) (err - dx + dy)
      else (x, y) :: bresLoopY y1 sy sx dy dx n x (y + sy) (err - dx) := rfl

theorem getLast?_cons_of_ne_nil {α : Type} (a : α) {l : List α} (h : l ≠ []) :
    (a :: l).getLast? = l.getLast? := by
  cases l with
  | nil => exact absurd rfl h
  | cons b t => simp [List.getLast?_cons_cons]

theorem getLast?_map {α β : Type} (f : α → β) :
    ∀ l : List α, (l.map f).getLast? = l.getLast?.map f := by
  intro l
  induction l with
  | nil => rfl
  | cons a t ih =>
    cases t with
    | nil => rfl
    | cons b u => simpa [List.getLast?_cons_cons] using ih

/-- The step sign computed by `bresenham_line` really does point from the
start coordinate to the end coordinate: stepping `|x1 - x0|` times by the
sign lands exactly on `x1`. -/
theorem sign_decomp (x0 x1 : ℤ) :
    x1 = x0 + (if x0 > x1 then -1 else 1) * ((x1 - x0).natAbs : ℤ) := by
  split <;> omega

/-- Invariant-based specification of the x-major Bresenham loop.  With `n`
primary steps remaining, `m` secondary steps remaining, and error
accumulator `err` satisfying the window invariant, the loop produces a
list of `n + 1` cells starting at `(x, y)`, ending at
`(x + sx·n, y + sy·m)`, with 8-connected consecutive cells. -/
theorem bresLoopX_spec (sx sy : ℤ) (hsx : sx = 1 ∨ sx = -1) (hsy : sy = 1 ∨ sy = -1)
    (dx dy : ℚ) (hdy : 0 ≤ dy) (hdd : dy ≤ dx) :
    ∀ (n m : ℕ) (x y : ℤ) (err : ℚ),
      0 ≤ err → err < dx →
      0 ≤ err - n * dy + m * dx → err - n * dy + m * dx < dx →
      (bresLoopX (x + sx * n) sx sy dx dy n x y err).length = n + 1 ∧
      (bresLoopX (x + sx * n) sx sy dx dy n x y err).head? = some (x, y) ∧
      (bresLoopX (x + sx * n) sx sy dx dy n x y err).getLast? = some (x + sx * n, y + sy * m) ∧
      List.Chain' adj (bresLoopX (x + sx * n) sx sy dx dy n x y err) := by
  intro n
  induction n with
  | zero =>
    intro m x y err h1 h2 h3 h4
    push_cast at h3 h4
    have hdx : 0 < dx := lt_of_le_of_lt h1 h2
    have hm : m = 0 := by
      by_contra hm
      have hm1 : (1 : ℚ) ≤ (m : ℚ) := by exact_mod_cast Nat.one_le_iff_ne_zero.mpr hm
      nlinarith
    subst hm
    refine ⟨rfl, rfl, ?_, ?_⟩
    · simp [bresLoopX]
    · simp [bresLoopX]
  | succ n ih =>
    intro m x y err h1 h2 h3 h4
    have hxne : x ≠ x + sx * ((n + 1 : ℕ) : ℤ) := by
      rcases hsx with h | h <;> subst h <;> push_cast <;> omega
    have harg : x + sx * ((n + 1 : ℕ) : ℤ) = x + sx + sx * (n : ℤ) := by
      push_cast
      ring
    rw [bresLoopX_succ, if_neg hxne, harg]
    by_cases he : err - dy < 0
    · rw [if_pos he]
      have hm : m ≠ 0 := by
        intro hm0
        subst hm0
        push_cast at h3
        have hn1 : (1 : ℚ) ≤ ((n : ℚ) + 1) := by
          have := Nat.cast_nonneg (α := ℚ) n
          linarith
        nlinarith
      obtain ⟨m', rfl⟩ := Nat.exists_eq_succ_of_ne_zero hm
      have h1' : 0 ≤ err - dy + dx := by linarith
      have h2' : err - dy + dx < dx := by linarith
      have h3' : 0 ≤ (err - dy + dx) - n * dy + m' * dx := by
        push_cast at h3 ⊢
        nlinarith [h3]
      have h4' : (err - dy + dx) - n * dy + m' * dx < dx := by
        push_cast at h4 ⊢
        nlinarith [h4]
      obtain ⟨ihlen, ihhead, ihlast, ihchain⟩ := ih m' (x + sx) (y + sy) (err - dy + dx) h1' h2' h3' h4'
      have hne : bresLoopX (x + sx + sx * (n : ℤ)) sx sy dx dy n (x + sx) (y + sy) (err - dy + dx) ≠ [] := by
        intro hnil
        rw [hnil] at ihlen
        simp at ihlen
      refine ⟨?_, rfl, ?_, ?_⟩
      · simp [ihlen]
      · rw [getLast?_cons_of_ne_nil _ hne, ihlast]
        have : y + sy + sy * (m' : ℤ) = y + sy * ((m' + 1 : ℕ) : ℤ) := by
          push_cast
          ring
        rw [this]
      · refine List.chain'_cons'.mpr ⟨?_, ihchain⟩
        intro b hb
        rw [ihhead] at hb
        simp only [Option.mem_def, Option.some_inj] at hb
        subst hb
        constructor
        · rcases hsx with h | h <;> subst h <;> simp
        · rcases hsy with h | h <;> subst h <;> simp
    · rw [if_neg he]
      push_neg at he
      have h1' : 0 ≤ err - dy := he
      have h2' : err - dy < dx := by linarith
      have h3' : 0 ≤ (err - dy) - n * dy + m * dx := by
        push_cast at h3 ⊢
        nlinarith [h3]
      have h4' : (err - dy) - n * dy + m * dx < dx := by
        push_cast at h4 ⊢
        nlinarith [h4]
      obtain ⟨ihlen, ihhead, ihlast, ihchain⟩ := ih m (x + sx) y (err - dy) h1' h2' h3' h4'
      have hne : bresLoopX (x + sx + sx * (n : ℤ)) sx sy dx dy n (x + sx) y (err - dy) ≠ [] := by
        intro hnil
        rw [hnil] at ihlen
        simp at ihlen
      refine ⟨?_, rfl, ?_, ?_⟩
      · simp [ihlen]
      · rw [getLast?_cons_of_ne_nil _ hne, ihlast]
      · refine List.chain'_cons'.mpr ⟨?_, ihchain⟩
        intro b hb
        rw [ihhead] at hb
        simp only [Option.mem_def, Option.some_inj] at hb
        subst hb
        constructor
        · rcases hsx with h | h <;> subst h <;> simp
        · simp

/-- The y-major loop is the x-major loop with the two axes swapped. -/
theorem bresLoopY_eq_map_swap (y1 sy sx : ℤ) (dy dx : ℚ) :
    ∀ (n : ℕ) (x y : ℤ) (err : ℚ),
      bresLoopY y1 sy sx dy dx n x y err =
        (bresLoopX y1 sy sx dy dx n y x err).map Prod.swap := by
  intro n
  induction n with
  | zero => intro x y err; rfl
  | succ n ih =>
    intro x y err
    rw [bresLoopY_succ, bresLoopX_succ]
    by_cases hy : y = y1
    · rw [if_pos hy, if_pos hy]
      rfl
    · rw [if_neg hy, if_neg hy]
      by_cases he : err - dx < 0
      · rw [if_pos he, if_pos he, ih]
        rfl
      · rw [if_neg he, if_neg he, ih]
        rfl

theorem adj_swap {a b : ℤ × ℤ} (h : adj a b) : adj (Prod.swap a) (Prod.swap b) :=
  ⟨h.2, h.1⟩

/-- Combined endpoint / connectivity / length specification of
`bresenham_line`. -/
theorem bres_main (x0 y0 x1 y1 : ℤ) :
    (bresenham_line x0 y0 x1 y1).head? = some (x0, y0) ∧
    (bresenham_line x0 y0 x1 y1).getLast? = some (x1, y1) ∧
    List.Chain' adj (bresenham_line x0 y0 x1 y1) ∧
    (bresenham_line x0 y0 x1 y1).length = max (x1 - x0).natAbs (y1 - y0).natAbs + 1 := by
  have hsx : (if x0 > x1 then (-1 : ℤ) else 1) = 1 ∨ (if x0 > x1 then (-1 : ℤ) else 1) = -1 := by
    split
    · exact Or.inr rfl
    · exact Or.inl rfl
  have hsy : (if y0 > y1 then (-1 : ℤ) else 1) = 1 ∨ (if y0 > y1 then (-1 : ℤ) else 1) = -1 := by
    split
    · exact Or.inr rfl
    · exact Or.inl rfl
  set sx : ℤ := if x0 > x1 then -1 else 1 with hsxdef
  set sy : ℤ := if y0 > y1 then -1 else 1 with hsydef
  set dx : ℕ := (x1 - x0).natAbs with hdxdef
  set dy : ℕ := (y1 - y0).natAbs with hdydef
  have hx1 : x1 = x0 + sx * (dx : ℤ) := sign_decomp x0 x1
  have hy1 : y1 = y0 + sy * (dy : ℤ) := sign_decomp y0 y1
  have hunf : bresenham_line x0 y0 x1 y1 =
      (if dy < dx then bresLoopX x1 sx sy dx dy dx x0 y0 ((dx : ℚ) / 2)
       else bresLoopY y1 sy sx dy dx dy x0 y0 ((dy : ℚ) / 2)) := rfl
  rw [hunf]
  by_cases hb : dy < dx
  · rw [if_pos hb]
    have hdx1 : (1 : ℚ) ≤ (dx : ℚ) := by exact_mod_cast Nat.one_le_iff_ne_zero.mpr (by omega)
    have hdycast : (0 : ℚ) ≤ (dy : ℚ) := Nat.cast_nonneg dy
    have hddcast : (dy : ℚ) ≤ (dx : ℚ) := by exact_mod_cast Nat.le_of_lt hb
    have hinv3 : (0 : ℚ) ≤ (dx : ℚ) / 2 - (dx : ℕ) * (dy : ℚ) + (dy : ℕ) * (dx : ℚ) := by
      push_cast
      nlinarith
    have hinv4 : ((dx : ℚ)) / 2 - (dx : ℕ) * (dy : ℚ) + (dy : ℕ) * (dx : ℚ) < (dx : ℚ) := by
      push_cast
      nlinarith
    obtain ⟨hlen, hhead, hlast, hchain⟩ :=
      bresLoopX_spec sx sy hsx hsy (dx : ℚ) (dy : ℚ) hdycast hddcast dx dy x0 y0 ((dx : ℚ) / 2)
        (by linarith) (by linarith) hinv3 hinv4
    rw [← hx1] at hlen hhead hlast hchain
    rw [← hy1] at hlast
    exact ⟨hhead, hlast, hchain, by rw [hlen, Nat.max_eq_left (Nat.le_of_lt hb)]⟩
  · rw [if_neg hb]
    push_neg at hb
    by_cases hz : dy = 0
    · have hdx0 : dx = 0 := by omega
      have hxx : x1 = x0 := by
        rw [hx1, hdx0]
        ring
      have hyy : y1 = y0 := by
        rw [hy1, hz]
        ring
      rw [hz]
      refine ⟨rfl, ?_, ?_, ?_⟩
      · show some (x0, y0) = some (x1, y1)
        rw [hxx, hyy]
      · exact List.chain'_singleton _
      · show 1 = max dx 0 + 1
        rw [hdx0]
        rfl
    · have hdy1 : (1 : ℚ) ≤ (dy : ℚ) := by exact_mod_cast Nat.one_le_iff_ne_zero.mpr hz
      have hdxcast : (0 : ℚ) ≤ (dx : ℚ) := Nat.cast_nonneg dx
      have hddcast : (dx : ℚ) ≤ (dy : ℚ) := by exact_mod_cast hb
      have hinv3 : (0 : ℚ) ≤ (dy : ℚ) / 2 - (dy : ℕ) * (dx : ℚ) + (dx : ℕ) * (dy : ℚ) := by
        push_cast
        nlinarith
      have hinv4 : ((dy : ℚ)) / 2 - (dy : ℕ) * (dx : ℚ) + (dx : ℕ) * (dy : ℚ) < (dy : ℚ) := by
        push_cast
        nlinarith
      obtain ⟨hlen, hhead, hlast, hchain⟩ :=
        bresLoopX_spec sy sx hsy hsx (dy : ℚ) (dx : ℚ) hdxcast hddcast dy dx y0 x0 ((dy : ℚ) / 2)
          (by linarith) (by linarith) hinv3 hinv4
      rw [← hy1] at hlen hhead hlast hchain
      rw [← hx1] at hlast
      rw [bresLoopY_eq_map_swap]
      refine ⟨?_, ?_, ?_, ?_⟩
      · rw [List.head?_map, hhead]
        rfl
      · rw [getLast?_map, hlast]
        rfl
      · rw [List.chain'_map]
        exact hchain.imp fun a b h => adj_swap h
      · rw [List.length_map, hlen, Nat.max_eq_right hb]

/-- The dense log-odds array `self.log_prob_map`: dimensions plus a value
function. Only indices below the dimensions are meaningful. -/
structure Grid where
  nx : ℕ
  ny : ℕ
  val : ℕ → ℕ → ℝ

/-- `OccupancyGrid.__init__` (occupancy.py lines 6-15):
`np.zeros([W * resolution + 1, H * resolution + 1])`. -/
def mkGrid (W H res : ℕ) : Grid :=
  ⟨W * res + 1, H * res + 1, fun _ _ => 0⟩

/-- numpy basic integer indexing into one dimension of size `dim`:
`0 ≤ i < dim` resolves to `i`; `-dim ≤ i < 0` silently wraps to `dim + i`;
anything else raises `IndexError` (modelled as `none`). -/
def npIndex (dim : ℕ) (i : ℤ) : Option ℕ :=
  if 0 ≤ i ∧ i < (dim : ℤ) then some i.toNat
  else if -(dim : ℤ) ≤ i ∧ i < 0 then some ((dim : ℤ) + i).toNat
  else none

/-- One `self.log_prob_map[c0, c1] += v` statement (occupancy.py lines
164 and 166): resolves both indices with numpy semantics and adds `v` at
the resolved cell, or raises. -/
noncomputable def npAdd (g : Grid) (c : ℤ × ℤ) (v : ℝ) : Option Grid :=
  match npIndex g.nx c.1, npIndex g.ny c.2 with
  | some i, some j =>
      some ⟨g.nx, g.ny, fun a b => if a = i ∧ b = j then g.val a b + v else g.val a b⟩
  | _, _ => none

/-- One of the two increment loops of `OccupancyGrid.update` (occupancy.py
lines 163-166): adds `v` at each listed cell in order; a raised
`IndexError` propagates out of the loop, leaving the increments of the
earlier iterations in place (partially mutated grid, success flag
`false`). -/
noncomputable def applyIncs (g : Grid) (v : ℝ) : List (ℤ × ℤ) → Grid × Bool
  | [] => (g, true)
  | c :: cs =>
      match npAdd g c v with
      | some g2 => applyIncs g2 v cs
      | none => (g, false)

/-- `np.clip(x, lo, hi)` = `np.minimum(np.maximum(x, lo), hi)`. -/
noncomputable def clip (x lo hi : ℝ) : ℝ := min (max x lo) hi

/-- `OccupancyGrid.fetch_prob_map` (occupancy.py lines 17-39): clips the
log-odds to the configured bounds and applies `1 - 1 / (1 + exp x)`
elementwise. -/
noncomputable def fetch_prob_map (lmin lmax : ℝ) (g : Grid) : ℕ → ℕ → ℝ :=
  fun i j => 1 - 1 / (1 + Real.exp (clip (g.val i j) lmin lmax))

/-- `np.round`: round to nearest integer, halves to the even integer. -/
noncomputable def npRound (x : ℝ) : ℤ :=
  if Int.fract x < 1 / 2 then ⌊x⌋
  else if 1 / 2 < Int.fract x then ⌊x⌋ + 1
  else if ⌊x⌋ % 2 = 0 then ⌊x⌋ else ⌊x⌋ + 1

/-- `np.linspace(a, b, n)` with the default inclusive endpoint: `n`
samples `a + (b - a) * i / (n - 1)`; a single sample is `[a]`. -/
noncomputable def linspace (a b : ℝ) (n : ℕ) : List ℝ :=
  match n with
  | 0 => []
  | 1 => [a]
  | _ => (List.range n).map fun i : ℕ => a + (b - a) * (i : ℝ) / ((n - 1 : ℕ) : ℝ)

/-- `OccupancyGrid.laser_sweep` (occupancy.py lines 88-108):
`theta = linspace(-pi/2, pi/2, len(zi))`, result
`[x + zi * cos(theta0 + theta), y + zi * sin(theta0 + theta)]` as a pair
of coordinate lists. -/
noncomputable def laser_sweep (xi : ℝ × ℝ × ℝ) (zi : List ℝ) : List ℝ × List ℝ :=
  let theta := linspace (-(Real.pi / 2)) (Real.pi / 2) zi.length
  ((zi.zip theta).map fun rt => xi.1 + rt.1 * Real.cos (xi.2.2 + rt.2),
   (zi.zip theta).map fun rt => xi.2.1 + rt.1 * Real.sin (xi.2.2 + rt.2))

/-- `OccupancyGrid.check_cells` (occupancy.py lines 110-144): scale the
sweep points by the resolution and round them to integer cells (occupied
cells); round the scaled pose to the robot cell; the free cells are the
robot cell twice followed by the Bresenham line from the robot cell to
each occupied cell in order. -/
noncomputable def check_cells (res : ℕ) (xi : ℝ × ℝ × ℝ) (zi : List ℝ) :
    List (ℤ × ℤ) × List (ℤ × ℤ) :=
  let sweep := laser_sweep xi zi
  let occ := (sweep.1.zip sweep.2).map fun pq => (npRound (pq.1 * res), npRound (pq.2 * res))
  let rx := npRound (xi.1 * res)
  let ry := npRound (xi.2.1 * res)
  let free := [(rx, ry), (rx, ry)] ++
    occ.foldl (fun acc c => acc ++ bresenham_line rx ry c.1 c.2) []
  (occ, free)

/-- `OccupancyGrid.update` (occupancy.py lines 146-166): compute the cell
sets, then run the occupied-evidence loop FIRST and the free-evidence
loop second; a raised `IndexError` in either loop propagates, leaving the
grid as mutated so far. -/
noncomputable def update (p : ℝ) (res : ℕ) (g : Grid) (xi : ℝ × ℝ × ℝ) (zi : List ℝ) :
    Grid × Bool :=
  let oc := check_cells res xi zi
  let r1 := applyIncs g (add_prob p true) oc.1
  if r1.2 then applyIncs r1.1 (add_prob p false) oc.2 else r1

/-- Modelled from the spec: the update order the specification describes
for claim C3 ("free update then occupied update"), stated only to be
compared with the source-order `update`. -/
noncomputable def update_specOrder (p : ℝ) (res : ℕ) (g : Grid) (xi : ℝ × ℝ × ℝ)
    (zi : List ℝ) : Grid × Bool :=
  let oc := check_cells res xi zi
  let r1 := applyIncs g (add_prob p false) oc.2
  if r1.2 then applyIncs r1.1 (add_prob p true) oc.1 else r1

/-- `process_odometry_and_laser_data` (map_operations.py lines 28-46):
clip the whole laser sequence to `[0, max_range]` once up front, then
update the map once per trajectory step in order (plotting omitted as out
of scope); a raised error aborts the remaining steps. -/
noncomputable def process_odometry_and_laser_data (max_range p : ℝ) (res : ℕ)
    (odometry : List (ℝ × ℝ × ℝ)) (laser : List (List ℝ)) (g : Grid) : Grid × Bool :=
  let laser2 := laser.map fun row => row.map fun z => clip z 0 max_range
  (odometry.zip laser2).foldl
    (fun acc step => if acc.2 then update p res acc.1 step.1 step.2 else acc) (g, true)

/-- Does cell `c`, resolved with numpy index semantics for a grid with
dimensions `nx × ny`, land on array entry `(i, j)`? -/
def touches (nx ny i j : ℕ) (c : ℤ × ℤ) : Bool :=
  decide (npIndex nx c.1 = some i ∧ npIndex ny c.2 = some j)

/-- The two increment directions are exact negations of each other, for
every base probability (division by zero and `log` of non-positives both
degenerate to `0` on the two sides simultaneously). -/
theorem add_prob_true_neg (p : ℝ) : add_prob p true = -add_prob p false := by
  show Real.log ((1 - p) / p) = -Real.log (p / (1 - p))
  rw [← Real.log_inv, inv_div]

/-- An increment loop never changes the grid dimensions. -/
theorem applyIncs_dims (v : ℝ) : ∀ (cs : List (ℤ × ℤ)) (g : Grid),
    (applyIncs g v cs).1.nx = g.nx ∧ (applyIncs g v cs).1.ny = g.ny := by
  intro cs
  induction cs with
  | nil => intro g; exact ⟨rfl, rfl⟩
  | cons c cs ih =>
    intro g
    rcases h1 : npIndex g.nx c.1 with _ | ia
    · simp [applyIncs, npAdd, h1]
    · rcases h2 : npIndex g.ny c.2 with _ | jb
      · simp [applyIncs, npAdd, h1, h2]
      · have hr := ih ⟨g.nx, g.ny, fun a b => if a = ia ∧ b = jb then g.val a b + v else g.val a b⟩
        simpa [applyIncs, npAdd, h1, h2] using hr

/-- When every cell of the list resolves to an in-range array entry, the
increment loop succeeds and adds `v` once per occurrence: entry `(i, j)`
gains `v` times the number of listed cells resolving to `(i, j)`. -/
theorem applyIncs_ok (v : ℝ) : ∀ (cs : List (ℤ × ℤ)) (g : Grid),
    (∀ c ∈ cs, (npIndex g.nx c.1).isSome ∧ (npIndex g.ny c.2).isSome) →
    (applyIncs g v cs).2 = true ∧
    ∀ i j : ℕ, (applyIncs g v cs).1.val i j =
      g.val i j + v * (cs.countP (touches g.nx g.ny i j)) := by
  intro cs
  induction cs with
  | nil =>
    intro g _
    exact ⟨rfl, fun i j => by simp [applyIncs]⟩
  | cons c cs ih =>
    intro g hok
    have hc := hok c (List.mem_cons_self c cs)
    have hcs : ∀ d ∈ cs, (npIndex g.nx d.1).isSome ∧ (npIndex g.ny d.2).isSome :=
      fun d hd => hok d (List.mem_cons_of_mem _ hd)
    rcases h1 : npIndex g.nx c.1 with _ | ia
    · rw [h1] at hc
      simp at hc
    rcases h2 : npIndex g.ny c.2 with _ | jb
    · rw [h2] at hc
      simp at hc
    have hstep : applyIncs g v (c :: cs) =
        applyIncs ⟨g.nx, g.ny, fun a b => if a = ia ∧ b = jb then g.val a b + v else g.val a b⟩
          v cs := by
      simp [applyIncs, npAdd, h1, h2]
    have ih2 := ih ⟨g.nx, g.ny, fun a b => if a = ia ∧ b = jb then g.val a b + v else g.val a b⟩
      (fun d hd => hcs d hd)
    have ih2v : ∀ i j : ℕ,
        (applyIncs ⟨g.nx, g.ny, fun a b => if a = ia ∧ b = jb then g.val a b + v else g.val a b⟩
            v cs).1.val i j =
          (if i = ia ∧ j = jb then g.val i j + v else g.val i j) +
            v * (cs.countP (touches g.nx g.ny i j)) := ih2.2
    rw [hstep]
    refine ⟨ih2.1, fun i j => ?_⟩
    rw [ih2v i j]
    rw [List.countP_cons]
    by_cases hij : i = ia ∧ j = jb
    · have ht : touches g.nx g.ny i j c = true := by
        rw [touches, decide_eq_true_iff]
        exact ⟨by rw [h1, hij.1], by rw [h2, hij.2]⟩
      rw [if_pos hij, ht]
      push_cast
      norm_num
      ring
    · have ht : touches g.nx g.ny i j c = false := by
        rw [touches, decide_eq_false_iff_not]
        intro hcon
        rw [h1, Option.some_inj] at hcon
        rw [h2, Option.some_inj] at hcon
        exact hij ⟨hcon.1.symm, hcon.2.symm⟩
      rw [if_neg hij, ht]
      push_cast
      norm_num

/-- The success flag and the per-cell increment delta of an increment
loop depend only on the grid dimensions, not on its values. -/
theorem applyIncs_delta (v : ℝ) : ∀ (cs : List (ℤ × ℤ)) (g h : Grid),
    g.nx = h.nx → g.ny = h.ny →
    (applyIncs g v cs).2 = (applyIncs h v cs).2 ∧
    ∀ i j : ℕ, (applyIncs g v cs).1.val i j - g.val i j
      = (applyIncs h v cs).1.val i j - h.val i j := by
  intro cs
  induction cs with
  | nil =>
    intro g h _ _
    exact ⟨rfl, fun i j => by simp [applyIncs]⟩
  | cons c cs ih =>
    intro g h hnx hny
    rcases h1 : npIndex g.nx c.1 with _ | ia
    · have h1h : npIndex h.nx c.1 = none := by rw [← hnx]; exact h1
      constructor
      · simp [applyIncs, npAdd, h1, h1h]
      · intro i j
        simp [applyIncs, npAdd, h1, h1h]
    · have h1h : npIndex h.nx c.1 = some ia := by rw [← hnx]; exact h1
      rcases h2 : npIndex g.ny c.2 with _ | jb
      · have h2h : npIndex h.ny c.2 = none := by rw [← hny]; exact h2
        constructor
        · simp [applyIncs, npAdd, h1, h1h, h2, h2h]
        · intro i j
          simp [applyIncs, npAdd, h1, h1h, h2, h2h]
      · have h2h : npIndex h.ny c.2 = some jb := by rw [← hny]; exact h2
        have hstepg : applyIncs g v (c :: cs) =
            applyIncs ⟨g.nx, g.ny, fun a b => if a = ia ∧ b = jb then g.val a b + v else g.val a b⟩
              v cs := by
          simp [applyIncs, npAdd, h1, h2]
        have hsteph : applyIncs h v (c :: cs) =
            applyIncs ⟨h.nx, h.ny, fun a b => if a = ia ∧ b = jb then h.val a b + v else h.val a b⟩
              v cs := by
          simp [applyIncs, npAdd, h1h, h2h]
        have ihr := ih
          ⟨g.nx, g.ny, fun a b => if a = ia ∧ b = jb then g.val a b + v else g.val a b⟩
          ⟨h.nx, h.ny, fun a b => if a = ia ∧ b = jb then h.val a b + v else h.val a b⟩
          hnx hny
        rw [hstepg, hsteph]
        refine ⟨ihr.1, fun i j => ?_⟩
        have hd := ihr.2 i j
        by_cases hij : i = ia ∧ j = jb
        · simp only [if_pos hij] at hd
          linarith
        · simp only [if_neg hij] at hd
          linarith

/-- A loop succeeds exactly when every listed cell resolves in range. -/
theorem applyIncs_succ_iff (v : ℝ) : ∀ (cs : List (ℤ × ℤ)) (g : Grid),
    (applyIncs g v cs).2 = true ↔
      ∀ c ∈ cs, (npIndex g.nx c.1).isSome ∧ (npIndex g.ny c.2).isSome := by
  intro cs
  induction cs with
  | nil =>
    intro g
    simp [applyIncs]
  | cons c cs ih =>
    intro g
    rcases h1 : npIndex g.nx c.1 with _ | ia
    · simp only [applyIncs, npAdd, h1]
      constructor
      · intro hcon
        simp at hcon
      · intro hall
        have := (hall c (List.mem_cons_self c cs)).1
        rw [h1] at this
        simp at this
    · rcases h2 : npIndex g.ny c.2 with _ | jb
      · simp only [applyIncs, npAdd, h1, h2]
        constructor
        · intro hcon
          simp at hcon
        · intro hall
          have := (hall c (List.mem_cons_self c cs)).2
          rw [h2] at this
          simp at this
      · have hstep : applyIncs g v (c :: cs) =
            applyIncs ⟨g.nx, g.ny, fun a b => if a = ia ∧ b = jb then g.val a b + v else g.val a b⟩
              v cs := by
          simp [applyIncs, npAdd, h1, h2]
        rw [hstep,
          ih ⟨g.nx, g.ny, fun a b => if a = ia ∧ b = jb then g.val a b + v else g.val a b⟩]
        constructor
        · intro hall d hd
          rcases List.mem_cons.mp hd with rfl | hd2
          · exact ⟨by rw [h1]; rfl, by rw [h2]; rfl⟩
          · exact hall d hd2
        · intro hall d hd
          exact hall d (List.mem_cons_of_mem _ hd)

/-- If the loop list splits as good cells, then one out-of-range cell,
the loop stops at the bad cell with the good prefix fully applied and the
failure flag set: the grid is left partially mutated. -/
theorem applyIncs_append_fail (v : ℝ) : ∀ (cs1 : List (ℤ × ℤ)) (g : Grid) (c : ℤ × ℤ)
    (cs2 : List (ℤ × ℤ)),
    (∀ d ∈ cs1, (npIndex g.nx d.1).isSome ∧ (npIndex g.ny d.2).isSome) →
    ¬((npIndex g.nx c.1).isSome ∧ (npIndex g.ny c.2).isSome) →
    applyIncs g v (cs1 ++ c :: cs2) = ((applyIncs g v cs1).1, false) := by
  intro cs1
  induction cs1 with
  | nil =>
    intro g c cs2 _ hbad
    rcases h1 : npIndex g.nx c.1 with _ | ia
    · simp [applyIncs, npAdd, h1]
    · rcases h2 : npIndex g.ny c.2 with _ | jb
      · simp [applyIncs, npAdd, h1, h2]
      · exact absurd ⟨by rw [h1]; rfl, by rw [h2]; rfl⟩ hbad
  | cons d cs1 ih =>
    intro g c cs2 hok hbad
    have hd := hok d (List.mem_cons_self d cs1)
    rcases h1 : npIndex g.nx d.1 with _ | ia
    · rw [h1] at hd
      simp at hd
    rcases h2 : npIndex g.ny d.2 with _ | jb
    · rw [h2] at hd
      simp at hd
    have hstep : ∀ l, applyIncs g v (d :: l) =
        applyIncs ⟨g.nx, g.ny, fun a b => if a = ia ∧ b = jb then g.val a b + v else g.val a b⟩
          v l := by
      intro l
      simp [applyIncs, npAdd, h1, h2]
    rw [List.cons_append, hstep, hstep,
      ih ⟨g.nx, g.ny, fun a b => if a = ia ∧ b = jb then g.val a b + v else g.val a b⟩ c cs2
        (fun e he => hok e (List.mem_cons_of_mem _ he)) hbad]

/-- Unfolding equation for `update`: the occupied-evidence loop runs
first; only if it completes does the free-evidence loop run. -/
theorem update_eq (p : ℝ) (res : ℕ) (g : Grid) (xi : ℝ × ℝ × ℝ) (zi : List ℝ) :
    update p res g xi zi =
      if (applyIncs g (add_prob p true) (check_cells res xi zi).1).2 then
        applyIncs (applyIncs g (add_prob p true) (check_cells res xi zi).1).1
          (add_prob p false) (check_cells res xi zi).2
      else applyIncs g (add_prob p true) (check_cells res xi zi).1 := rfl

/-- `update` never changes the grid dimensions. -/
theorem update_dims (p : ℝ) (res : ℕ) (g : Grid) (xi : ℝ × ℝ × ℝ) (zi : List ℝ) :
    (update p res g xi zi).1.nx = g.nx ∧ (update p res g xi zi).1.ny = g.ny := by
  rw [update_eq]
  obtain ⟨a1, a2⟩ := applyIncs_dims (add_prob p true) (check_cells res xi zi).1 g
  by_cases hf : (applyIncs g (add_prob p true) (check_cells res xi zi).1).2 = true
  · obtain ⟨b1, b2⟩ := applyIncs_dims (add_prob p false) (check_cells res xi zi).2
      (applyIncs g (add_prob p true) (check_cells res xi zi).1).1
    simp only [hf, if_true]
    exact ⟨by rw [b1, a1], by rw [b2, a2]⟩
  · simp only [Bool.not_eq_true] at hf
    simp only [hf, Bool.false_eq_true, if_false]
    exact ⟨a1, a2⟩

/-- The success flag and per-cell delta of a whole `update` depend only
on the grid dimensions, not on the stored log-odds. -/
theorem update_delta (p : ℝ) (res : ℕ) (xi : ℝ × ℝ × ℝ) (zi : List ℝ)
    (g h : Grid) (hnx : g.nx = h.nx) (hny : g.ny = h.ny) :
    (update p res g xi zi).2 = (update p res h xi zi).2 ∧
    ∀ i j : ℕ, (update p res g xi zi).1.val i j - g.val i j
      = (update p res h xi zi).1.val i j - h.val i j := by
  rw [update_eq, update_eq]
  obtain ⟨f1, d1⟩ := applyIncs_delta (add_prob p true) (check_cells res xi zi).1 g h hnx hny
  obtain ⟨ga1, ga2⟩ := applyIncs_dims (add_prob p true) (check_cells res xi zi).1 g
  obtain ⟨ha1, ha2⟩ := applyIncs_dims (add_prob p true) (check_cells res xi zi).1 h
  by_cases hf : (applyIncs g (add_prob p true) (check_cells res xi zi).1).2 = true
  · have hfh : (applyIncs h (add_prob p true) (check_cells res xi zi).1).2 = true := by
      rw [← f1]
      exact hf
    simp only [hf, hfh, if_true]
    obtain ⟨f2, d2⟩ := applyIncs_delta (add_prob p false) (check_cells res xi zi).2
      (applyIncs g (add_prob p true) (check_cells res xi zi).1).1
      (applyIncs h (add_prob p true) (check_cells res xi zi).1).1
      (by rw [ga1, ha1, hnx]) (by rw [ga2, ha2, hny])
    refine ⟨f2, fun i j => ?_⟩
    have e1 := d1 i j
    have e2 := d2 i j
    linarith
  · simp only [Bool.not_eq_true] at hf
    have hfh : (applyIncs h (add_prob p true) (check_cells res xi zi).1).2 = false := by
      rw [← f1]
      exact hf
    simp only [hf, hfh, Bool.false_eq_true, if_false]
    exact ⟨trivial, d1⟩

/-- `np.round` is the identity on exact integers. -/
theorem npRound_intCast (n : ℤ) : npRound (n : ℝ) = n := by
  unfold npRound
  rw [Int.fract_intCast, if_pos (by norm_num : (0 : ℝ) < 1 / 2)]
  exact Int.floor_intCast n

/-- With no range readings there are no occupied cells and the free list
is just the robot cell listed twice. -/
theorem check_cells_nil (res : ℕ) (xi : ℝ × ℝ × ℝ) :
    check_cells res xi [] =
      ([], [(npRound (xi.1 * res), npRound (xi.2.1 * res)),
            (npRound (xi.1 * res), npRound (xi.2.1 * res))]) := by
  simp [check_cells, laser_sweep, linspace]

/-- Concrete evaluation: one update of the fresh 11×11 grid at pose
`(2,2,0)` with no beams adds the free increment `ln 3` twice at the robot
cell `(2,2)`. -/
theorem update_once_nil_val :
    (update (3/4) 1 (mkGrid 10 10 1) (2, 2, 0) []).1.val 2 2 = 2 * Real.log 3 := by
  have hr : npRound ((2 : ℝ) * ((1 : ℕ) : ℝ)) = 2 := by
    rw [show ((2 : ℝ) * ((1 : ℕ) : ℝ)) = ((2 : ℤ) : ℝ) by push_cast; ring]
    exact npRound_intCast 2
  have hcc : check_cells 1 (2, 2, 0) [] = ([], [(2, 2), (2, 2)]) := by
    rw [check_cells_nil, hr]
  have hidx : npIndex (mkGrid 10 10 1).nx 2 = some 2 := by decide
  have hidy : npIndex (mkGrid 10 10 1).ny 2 = some 2 := by decide
  rw [update_eq, hcc]
  simp only [applyIncs, npAdd, hidx, hidy, if_true]
  norm_num [add_prob]
  have hz : (mkGrid 10 10 1).val 2 2 = 0 := rfl
  rw [hz]
  ring

/-- C4: starting from a freshly constructed all-zero grid, applying the
same `update(pose, ranges)` twice yields the log-odds array equal to
exactly twice the array after a single update (accumulation is additive,
not idempotent); consequently the two-update grid differs from the
one-update grid at every cell that received a nonzero net increment. -/
theorem C4_update_twice_doubles (p : ℝ) (W H res : ℕ) (xi : ℝ × ℝ × ℝ) (zi : List ℝ) :
    (∀ i j : ℕ,
      (update p res (update p res (mkGrid W H res) xi zi).1 xi zi).1.val i j =
        2 * (update p res (mkGrid W H res) xi zi).1.val i j) ∧
    (∀ i j : ℕ, (update p res (mkGrid W H res) xi zi).1.val i j ≠ 0 →
      (update p res (update p res (mkGrid W H res) xi zi).1 xi zi).1.val i j ≠
        (update p res (mkGrid W H res) xi zi).1.val i j) := by
  obtain ⟨hx, hy⟩ := update_dims p res (mkGrid W H res) xi zi
  have hdelta := (update_delta p res xi zi
    (update p res (mkGrid W H res) xi zi).1 (mkGrid W H res) hx hy).2
  have hdouble : ∀ i j : ℕ,
      (update p res (update p res (mkGrid W H res) xi zi).1 xi zi).1.val i j =
        2 * (update p res (mkGrid W H res) xi zi).1.val i j := by
    intro i j
    have hz : (mkGrid W H res).val i j = 0 := rfl
    have := hdelta i j
    rw [hz] at this
    linarith
  refine ⟨hdouble, fun i j hne hcon => ?_⟩
  rw [hdouble i j] at hcon
  apply hne
  linarith

/-- Witness for C4: with base probability `3/4`, resolution 1, a 10×10
map, pose `(2, 2, 0)` and an empty range vector, the robot cell receives
the nonzero net increment `2·ln 3` once, and `4·ln 3 ≠ 2·ln 3` after the
second update. -/
theorem C4_update_twice_doubles_witness :
    (update (3/4) 1 (update (3/4) 1 (mkGrid 10 10 1) (2, 2, 0) []).1 (2, 2, 0) []).1.val 2 2 =
      2 * (update (3/4) 1 (mkGrid 10 10 1) (2, 2, 0) []).1.val 2 2 ∧
    (update (3/4) 1 (update (3/4) 1 (mkGrid 10 10 1) (2, 2, 0) []).1 (2, 2, 0) []).1.val 2 2 ≠
      (update (3/4) 1 (mkGrid 10 10 1) (2, 2, 0) []).1.val 2 2 := by
  obtain ⟨h1, h2⟩ := C4_update_twice_doubles (3/4) 10 10 1 (2, 2, 0) []
  refine ⟨h1 2 2, h2 2 2 ?_⟩
  rw [update_once_nil_val]
  have h3 : (0:ℝ) < Real.log 3 := Real.log_pos (by norm_num)
  intro hcon
  linarith

/-- Unfolding equation for the spec-order variant. -/
theorem update_specOrder_eq (p : ℝ) (res : ℕ) (g : Grid) (xi : ℝ × ℝ × ℝ) (zi : List ℝ) :
    update_specOrder p res g xi zi =
      if (applyIncs g (add_prob p false) (check_cells res xi zi).2).2 then
        applyIncs (applyIncs g (add_prob p false) (check_cells res xi zi).2).1
          (add_prob p true) (check_cells res xi zi).1
      else applyIncs g (add_prob p false) (check_cells res xi zi).2 := rfl

/-- An `update` succeeds exactly when every occupied and every free cell
resolves in range for the grid dimensions. -/
theorem update_succ_iff (p : ℝ) (res : ℕ) (g : Grid) (xi : ℝ × ℝ × ℝ) (zi : List ℝ) :
    (update p res g xi zi).2 = true ↔
      (∀ c ∈ (check_cells res xi zi).1,
        (npIndex g.nx c.1).isSome ∧ (npIndex g.ny c.2).isSome) ∧
      (∀ c ∈ (check_cells res xi zi).2,
        (npIndex g.nx c.1).isSome ∧ (npIndex g.ny c.2).isSome) := by
  rw [update_eq]
  obtain ⟨hdx, hdy⟩ := applyIncs_dims (add_prob p true) (check_cells res xi zi).1 g
  by_cases hf : (applyIncs g (add_prob p true) (check_cells res xi zi).1).2 = true
  · simp only [hf, if_true]
    have hocc := (applyIncs_succ_iff (add_prob p true) (check_cells res xi zi).1 g).mp hf
    constructor
    · intro h2
      refine ⟨hocc, ?_⟩
      have h3 := (applyIncs_succ_iff (add_prob p false) (check_cells res xi zi).2 _).mp h2
      rw [hdx, hdy] at h3
      exact h3
    · rintro ⟨-, h2⟩
      apply (applyIncs_succ_iff (add_prob p false) (check_cells res xi zi).2 _).mpr
      rw [hdx, hdy]
      exact h2
  · simp only [Bool.not_eq_true] at hf
    simp only [hf, Bool.false_eq_true, if_false]
    constructor
    · intro hcon
      exact absurd hcon (by simp)
    · rintro ⟨h1, -⟩
      have h2 := (applyIncs_succ_iff (add_prob p true) (check_cells res xi zi).1 g).mpr h1
      rw [hf] at h2
      exact absurd h2 (by simp)

/-- On success, each array entry of the updated grid gains the occupied
increment once per occupied cell resolving to it plus the free increment
once per free cell resolving to it. -/
theorem update_val_formula (p : ℝ) (res : ℕ) (g : Grid) (xi : ℝ × ℝ × ℝ) (zi : List ℝ)
    (hok : (update p res g xi zi).2 = true) (i j : ℕ) :
    (update p res g xi zi).1.val i j =
      g.val i j
        + add_prob p true * ((check_cells res xi zi).1.countP (touches g.nx g.ny i j))
        + add_prob p false * ((check_cells res xi zi).2.countP (touches g.nx g.ny i j)) := by
  have hiff := (update_succ_iff p res g xi zi).mp hok
  rw [update_eq]
  have hf : (applyIncs g (add_prob p true) (check_cells res xi zi).1).2 = true :=
    (applyIncs_succ_iff _ _ g).mpr hiff.1
  simp only [hf, if_true]
  obtain ⟨-, hoccval⟩ := applyIncs_ok (add_prob p true) (check_cells res xi zi).1 g hiff.1
  obtain ⟨hdx, hdy⟩ := applyIncs_dims (add_prob p true) (check_cells res xi zi).1 g
  have hfree2 : ∀ c ∈ (check_cells res xi zi).2,
      (npIndex (applyIncs g (add_prob p true) (check_cells res xi zi).1).1.nx c.1).isSome ∧
      (npIndex (applyIncs g (add_prob p true) (check_cells res xi zi).1).1.ny c.2).isSome := by
    rw [hdx, hdy]
    exact hiff.2
  obtain ⟨-, hfreeval⟩ := applyIncs_ok (add_prob p false) (check_cells res xi zi).2 _ hfree2
  rw [hfreeval i j, hoccval i j, hdx, hdy]

/-- `np.round` evaluated at any expression equal to an exact integer. -/
theorem npRound_eval (x : ℝ) (n : ℤ) (h : x = (n : ℝ)) : npRound x = n := by
  rw [h]
  exact npRound_intCast n

/-- Two linspace samples are exactly the two endpoints. -/
theorem linspace_two (a b : ℝ) : linspace a b 2 = [a, b] := by
  norm_num [linspace, List.range_succ]

/-- The sweep of the single beam `[5]` from pose `(0, 0, π/2)`: beam angle
`π/2 - π/2 = 0`, hit point `(5, 0)`. -/
theorem sweep_single_five :
    laser_sweep (0, 0, Real.pi / 2) [5] = ([5], [0]) := by
  norm_num [laser_sweep, linspace, Real.cos_zero, Real.sin_zero]

/-- Cell sets for pose `(0, 0, π/2)` and ranges `[5]` at resolution 1. -/
theorem check_cells_eval_B :
    check_cells 1 (0, 0, Real.pi / 2) [5] =
      ([(5, 0)], [(0, 0), (0, 0), (0, 0), (1, 0), (2, 0), (3, 0), (4, 0), (5, 0)]) := by
  have h5 : npRound (5 : ℝ) = 5 := npRound_eval _ 5 (by norm_num)
  have h0 : npRound (0 : ℝ) = 0 := npRound_eval _ 0 (by norm_num)
  have hb : bresenham_line 0 0 5 0 = [(0, 0), (1, 0), (2, 0), (3, 0), (4, 0), (5, 0)] := by
    norm_num [bresenham_line, bresLoopX, bresLoopY]
  simp only [check_cells, sweep_single_five]
  norm_num [h5, h0, hb]

/-- The sweep of the single beam `[2]` from pose `(2, 2, π/2)`: hit point
`(4, 2)`. -/
theorem sweep_single_two :
    laser_sweep (2, 2, Real.pi / 2) [2] = ([4], [2]) := by
  norm_num [laser_sweep, linspace, Real.cos_zero, Real.sin_zero]

/-- Cell sets for pose `(2, 2, π/2)` and ranges `[2]` at resolution 1. -/
theorem check_cells_eval_C :
    check_cells 1 (2, 2, Real.pi / 2) [2] =
      ([(4, 2)], [(2, 2), (2, 2), (2, 2), (3, 2), (4, 2)]) := by
  have h4 : npRound (4 : ℝ) = 4 := npRound_eval _ 4 (by norm_num)
  have h2 : npRound (2 : ℝ) = 2 := npRound_eval _ 2 (by norm_num)
  have hb : bresenham_line 2 2 4 2 = [(2, 2), (3, 2), (4, 2)] := by
    norm_num [bresenham_line, bresLoopX, bresLoopY]
  simp only [check_cells, sweep_single_two]
  norm_num [h4, h2, hb]

/-- The free increment at base probability `3/4` is `ln 3`. -/
theorem add_prob_false_three_quarters : add_prob (3 / 4) false = Real.log 3 := by
  rw [add_prob]
  norm_num

/-- C3 (amended): in `update(pose, ranges)` the occupied-evidence loop
runs BEFORE the free-evidence loop (see `update_eq`), and because both
loops accumulate with `+=` the final grid on success is the initial grid
plus `add_prob(True)` per occupied occurrence and `add_prob(False)` per
free occurrence of each cell; since the two increments are exact
negations, a cell whose occupied and free occurrence counts are equal —
in particular any net-balanced hit cell — ends at exactly its prior
log-odds, not occupied-biased. -/
theorem C3_update_order_and_cancellation (p : ℝ) (res : ℕ) (g : Grid) (xi : ℝ × ℝ × ℝ)
    (zi : List ℝ) (hok : (update p res g xi zi).2 = true) :
    ∀ i j : ℕ,
      (update p res g xi zi).1.val i j =
        g.val i j
          + add_prob p true * ((check_cells res xi zi).1.countP (touches g.nx g.ny i j))
          + add_prob p false * ((check_cells res xi zi).2.countP (touches g.nx g.ny i j)) ∧
      (((check_cells res xi zi).1.countP (touches g.nx g.ny i j) : ℕ) =
          (check_cells res xi zi).2.countP (touches g.nx g.ny i j) →
        (update p res g xi zi).1.val i j = g.val i j) := by
  intro i j
  have hform := update_val_formula p res g xi zi hok i j
  refine ⟨hform, fun hcnt => ?_⟩
  rw [hform, hcnt, add_prob_true_neg]
  ring

/-- Counterexample to C3 as stated: (1) the update order is NOT
free-then-occupied — running the spec's free-first order on pose
`(0, 0, π/2)`, ranges `[5]`, over the 2×2 grid gives a different result
than the implementation (the implementation fails in its first loop
leaving the grid untouched, the spec order applies three free increments
before failing); (2) a hit cell is NOT net-occupied-biased: on the 5×5
grid with pose `(2, 2, π/2)`, ranges `[2]`, the update succeeds and the
hit cell `(4, 2)` — also the endpoint of the free path — ends at exactly
its prior log-odds `0`. -/
theorem C3_counterexample :
    update (3 / 4) 1 (mkGrid 1 1 1) (0, 0, Real.pi / 2) [5] ≠
      update_specOrder (3 / 4) 1 (mkGrid 1 1 1) (0, 0, Real.pi / 2) [5] ∧
    (update (3 / 4) 1 (mkGrid 4 4 1) (2, 2, Real.pi / 2) [2]).2 = true ∧
    (update (3 / 4) 1 (mkGrid 4 4 1) (2, 2, Real.pi / 2) [2]).1.val 4 2 = 0 := by
  have i0 : npIndex (2 : ℕ) 0 = some 0 := by decide
  have i1 : npIndex (2 : ℕ) 1 = some 1 := by decide
  have i2 : npIndex (2 : ℕ) 2 = none := by decide
  have i5 : npIndex (2 : ℕ) 5 = none := by decide
  have hlog3 : (0 : ℝ) < Real.log 3 := Real.log_pos (by norm_num)
  refine ⟨?_, ?_⟩
  · have hu : (update (3 / 4) 1 (mkGrid 1 1 1) (0, 0, Real.pi / 2) [5]).1.val 0 0 = 0 := by
      rw [update_eq, check_cells_eval_B]
      simp [applyIncs, npAdd, mkGrid, i5, i0]
    have hs : (update_specOrder (3 / 4) 1 (mkGrid 1 1 1) (0, 0, Real.pi / 2) [5]).1.val 0 0 =
        3 * Real.log 3 := by
      rw [update_specOrder_eq, check_cells_eval_B]
      simp [applyIncs, npAdd, mkGrid, i0, i1, i2, add_prob_false_three_quarters]
      ring
    intro hcon
    rw [hcon] at hu
    rw [hu] at hs
    linarith
  · have hsucc : (update (3 / 4) 1 (mkGrid 4 4 1) (2, 2, Real.pi / 2) [2]).2 = true := by
      rw [update_succ_iff, check_cells_eval_C]
      constructor
      · intro c hc
        fin_cases hc <;> exact ⟨by decide, by decide⟩
      · intro c hc
        fin_cases hc <;> exact ⟨by decide, by decide⟩
    refine ⟨hsucc, ?_⟩
    have hval := update_val_formula (3 / 4) 1 (mkGrid 4 4 1) (2, 2, Real.pi / 2) [2] hsucc 4 2
    rw [check_cells_eval_C] at hval
    have hc1 : List.countP (touches (mkGrid 4 4 1).nx (mkGrid 4 4 1).ny 4 2) [(4, 2)] = 1 := by
      decide
    have hc2 : List.countP (touches (mkGrid 4 4 1).nx (mkGrid 4 4 1).ny 4 2)
        [(2, 2), (2, 2), (2, 2), (3, 2), (4, 2)] = 1 := by
      decide
    rw [hc1, hc2, add_prob_true_neg] at hval
    rw [hval]
    have hz : (mkGrid 4 4 1).val 4 2 = 0 := rfl
    rw [hz]
    ring

/-- Witness for C3 (amended): with base probability `3/4` on the fresh
11×11 grid at pose `(2, 2, 0)` with no beams, the update succeeds and a
cell with equal (zero) occupied and free counts keeps its prior value. -/
theorem C3_update_order_and_cancellation_witness :
    (update (3 / 4) 1 (mkGrid 10 10 1) (2, 2, 0) []).2 = true ∧
    (update (3 / 4) 1 (mkGrid 10 10 1) (2, 2, 0) []).1.val 0 0 =
      (mkGrid 10 10 1).val 0 0 := by
  have hcc : check_cells 1 (2, 2, 0) [] = ([], [(2, 2), (2, 2)]) := by
    rw [check_cells_nil]
    rw [npRound_eval ((2 : ℝ) * ((1 : ℕ) : ℝ)) 2 (by push_cast; ring)]
  have hsucc : (update (3 / 4) 1 (mkGrid 10 10 1) (2, 2, 0) []).2 = true := by
    rw [update_succ_iff, hcc]
    constructor
    · intro c hc
      simp at hc
    · intro c hc
      fin_cases hc <;> exact ⟨by decide, by decide⟩
  refine ⟨hsucc, ?_⟩
  have h := (C3_update_order_and_cancellation (3 / 4) 1 (mkGrid 10 10 1) (2, 2, 0) [] hsucc 0 0).2
  apply h
  rw [hcc]
  decide

/-- The sweep of the beams `[1, 5]` from pose `(0, 0, π/2)`: beam angles
`0` and `π`, hit points `(1, 0)` and `(-5, 0)`. -/
theorem sweep_pair_one_five :
    laser_sweep (0, 0, Real.pi / 2) [1, 5] = ([1, -5], [0, 0]) := by
  have hl : linspace (-(Real.pi / 2)) (Real.pi / 2) 2 = [-(Real.pi / 2), Real.pi / 2] :=
    linspace_two _ _
  have hpi : Real.pi / 2 + Real.pi / 2 = Real.pi := by ring
  norm_num [laser_sweep, hl, hpi, Real.cos_pi, Real.sin_pi, Real.cos_zero, Real.sin_zero]

/-- Cell sets for pose `(0, 0, π/2)` and ranges `[1, 5]` at resolution 1:
the second occupied cell `(-5, 0)` is far out of a small grid. -/
theorem check_cells_eval_A :
    check_cells 1 (0, 0, Real.pi / 2) [1, 5] =
      ([(1, 0), (-5, 0)],
       [(0, 0), (0, 0), (0, 0), (1, 0),
        (0, 0), (-1, 0), (-2, 0), (-3, 0), (-4, 0), (-5, 0)]) := by
  have h1 : npRound (1 : ℝ) = 1 := npRound_eval _ 1 (by norm_num)
  have h5 : npRound (-5 : ℝ) = -5 := npRound_eval _ (-5) (by norm_num)
  have h0 : npRound (0 : ℝ) = 0 := npRound_eval _ 0 (by norm_num)
  have hb1 : bresenham_line 0 0 1 0 = [(0, 0), (1, 0)] := by
    norm_num [bresenham_line, bresLoopX, bresLoopY]
  have hb5 : bresenham_line 0 0 (-5) 0 =
      [(0, 0), (-1, 0), (-2, 0), (-3, 0), (-4, 0), (-5, 0)] := by
    norm_num [bresenham_line, bresLoopX, bresLoopY]
  simp only [check_cells, sweep_pair_one_five]
  norm_num [h1, h5, h0, hb1, hb5]

/-- C7 (amended): when a cell coordinate computed by `check_cells` falls
outside even the numpy wraparound range, `update` raises `IndexError`,
but the failure is NOT atomic: an `update` succeeds exactly when all
occupied and free cells resolve in range, and when the occupied list
splits into an in-range prefix followed by a first out-of-range cell, the
update returns the failure flag with the prefix increments already
applied — the grid is left partially mutated, not "exactly as it was". -/
theorem C7_out_of_bounds_not_atomic (p : ℝ) (res : ℕ) (g : Grid) (xi : ℝ × ℝ × ℝ)
    (zi : List ℝ) :
    ((update p res g xi zi).2 = true ↔
      (∀ c ∈ (check_cells res xi zi).1,
        (npIndex g.nx c.1).isSome ∧ (npIndex g.ny c.2).isSome) ∧
      (∀ c ∈ (check_cells res xi zi).2,
        (npIndex g.nx c.1).isSome ∧ (npIndex g.ny c.2).isSome)) ∧
    (∀ (cs1 : List (ℤ × ℤ)) (c : ℤ × ℤ) (cs2 : List (ℤ × ℤ)),
      (check_cells res xi zi).1 = cs1 ++ c :: cs2 →
      (∀ d ∈ cs1, (npIndex g.nx d.1).isSome ∧ (npIndex g.ny d.2).isSome) →
      ¬((npIndex g.nx c.1).isSome ∧ (npIndex g.ny c.2).isSome) →
      update p res g xi zi = ((applyIncs g (add_prob p true) cs1).1, false)) := by
  refine ⟨update_succ_iff p res g xi zi, ?_⟩
  intro cs1 c cs2 hsplit hok hbad
  rw [update_eq, hsplit, applyIncs_append_fail (add_prob p true) cs1 g c cs2 hok hbad]
  simp

/-- Counterexample to C7 as stated: on the 2×2 grid with pose
`(0, 0, π/2)` and ranges `[1, 5]`, the first occupied cell `(1, 0)` is in
range and gets its increment, then the second occupied cell `(-5, 0)`
raises; the update reports failure but the grid is NOT left as it was:
cell `(1, 0)` now differs from its prior value. -/
theorem C7_counterexample :
    (update (3 / 4) 1 (mkGrid 1 1 1) (0, 0, Real.pi / 2) [1, 5]).2 = false ∧
    (update (3 / 4) 1 (mkGrid 1 1 1) (0, 0, Real.pi / 2) [1, 5]).1.val 1 0 ≠
      (mkGrid 1 1 1).val 1 0 := by
  have i1 : npIndex (2 : ℕ) 1 = some 1 := by decide
  have i0 : npIndex (2 : ℕ) 0 = some 0 := by decide
  have im5 : npIndex (2 : ℕ) (-5) = none := by decide
  have hT : add_prob (3 / 4) true = Real.log (1 / 3) := by
    rw [add_prob]
    norm_num
  have hTneg : Real.log (1 / 3) < 0 := Real.log_neg (by norm_num) (by norm_num)
  constructor
  · rw [update_eq, check_cells_eval_A]
    simp [applyIncs, npAdd, mkGrid, i1, i0, im5]
  · rw [update_eq, check_cells_eval_A]
    simp [applyIncs, npAdd, mkGrid, i1, i0, im5, hT]
    linarith

/-- Witness for C7 (amended) at the concrete failing trajectory step:
the update equals the in-range prefix `[(1, 0)]` applied, with the
failure flag. -/
theorem C7_out_of_bounds_not_atomic_witness :
    update (3 / 4) 1 (mkGrid 1 1 1) (0, 0, Real.pi / 2) [1, 5] =
      ((applyIncs (mkGrid 1 1 1) (add_prob (3 / 4) true) [(1, 0)]).1, false) := by
  refine (C7_out_of_bounds_not_atomic (3 / 4) 1 (mkGrid 1 1 1) (0, 0, Real.pi / 2)
    [1, 5]).2 [(1, 0)] (-5, 0) [] ?_ ?_ ?_
  · rw [check_cells_eval_A]
    rfl
  · intro d hd
    fin_cases hd
    exact ⟨by decide, by decide⟩
  · decide

/-- Cell sets for pose `(-1, 0, 0)` and the zero range `[0]` at
resolution 1: the hit point coincides with the (negative) robot cell. -/
theorem check_cells_eval_D :
    check_cells 1 (-1, 0, 0) [0] = ([(-1, 0)], [(-1, 0), (-1, 0), (-1, 0)]) := by
  have hsweep : laser_sweep (-1, 0, 0) [0] = ([-1], [0]) := by
    norm_num [laser_sweep, linspace]
  have hm1 : npRound (-1 : ℝ) = -1 := npRound_eval _ (-1) (by norm_num)
  have h0 : npRound (0 : ℝ) = 0 := npRound_eval _ 0 (by norm_num)
  have hb : bresenham_line (-1) 0 (-1) 0 = [(-1, 0)] := by
    norm_num [bresenham_line, bresLoopX, bresLoopY]
  simp only [check_cells, hsweep]
  norm_num [hm1, h0, hb]

/-- C9: a cell coordinate that is negative but not below the negated grid
dimension raises no error: numpy indexing resolves it to `dim + c`, the
increment is silently added to that far-side cell, and the loop — hence
`update` — continues past it. -/
theorem C9_negative_wraparound (p : ℝ) (res : ℕ) (g : Grid) (a b : ℤ) (v : ℝ)
    (rest : List (ℤ × ℤ)) (xi : ℝ × ℝ × ℝ) (zi : List ℝ)
    (ha1 : -(g.nx : ℤ) ≤ a) (ha2 : a < 0) (hb1 : 0 ≤ b) (hb2 : b < (g.ny : ℤ)) :
    npIndex g.nx a = some ((g.nx : ℤ) + a).toNat ∧
    npAdd g (a, b) v = some ⟨g.nx, g.ny, fun i j =>
      if i = ((g.nx : ℤ) + a).toNat ∧ j = b.toNat then g.val i j + v else g.val i j⟩ ∧
    (Grid.mk g.nx g.ny (fun i j =>
        if i = ((g.nx : ℤ) + a).toNat ∧ j = b.toNat then g.val i j + v
        else g.val i j)).val ((g.nx : ℤ) + a).toNat b.toNat =
      g.val ((g.nx : ℤ) + a).toNat b.toNat + v ∧
    applyIncs g v ((a, b) :: rest) = applyIncs ⟨g.nx, g.ny, fun i j =>
      if i = ((g.nx : ℤ) + a).toNat ∧ j = b.toNat then g.val i j + v else g.val i j⟩ v rest ∧
    ((check_cells res xi zi).1 = (a, b) :: rest →
      update p res g xi zi =
        (let r1 := applyIncs ⟨g.nx, g.ny, fun i j =>
            if i = ((g.nx : ℤ) + a).toNat ∧ j = b.toNat then g.val i j + add_prob p true
            else g.val i j⟩ (add_prob p true) rest
         if r1.2 then applyIncs r1.1 (add_prob p false) (check_cells res xi zi).2 else r1)) := by
  have hia : npIndex g.nx a = some ((g.nx : ℤ) + a).toNat := by
    unfold npIndex
    rw [if_neg (fun hcon => absurd hcon.1 (not_le.mpr ha2)), if_pos ⟨ha1, ha2⟩]
  have hib : npIndex g.ny b = some b.toNat := by
    unfold npIndex
    rw [if_pos ⟨hb1, hb2⟩]
  have hadd : ∀ w : ℝ, npAdd g (a, b) w = some ⟨g.nx, g.ny, fun i j =>
      if i = ((g.nx : ℤ) + a).toNat ∧ j = b.toNat then g.val i j + w else g.val i j⟩ := by
    intro w
    simp [npAdd, hia, hib]
  have happ : ∀ w : ℝ, applyIncs g w ((a, b) :: rest) = applyIncs ⟨g.nx, g.ny, fun i j =>
      if i = ((g.nx : ℤ) + a).toNat ∧ j = b.toNat then g.val i j + w else g.val i j⟩ w rest := by
    intro w
    simp [applyIncs, hadd w]
  refine ⟨hia, hadd v, by simp, happ v, fun hocc => ?_⟩
  rw [update_eq, hocc, happ (add_prob p true)]

/-- Witness for C9: on the 2×2 grid, the occupied cell `(-1, 0)` produced
by pose `(-1, 0, 0)` with the zero beam resolves silently to far-side
index 1, and the update proceeds without error. -/
theorem C9_negative_wraparound_witness :
    npIndex (mkGrid 1 1 1).nx (-1) = some (((mkGrid 1 1 1).nx : ℤ) + -1).toNat ∧
    update (3 / 4) 1 (mkGrid 1 1 1) (-1, 0, 0) [0] =
      (let r1 := applyIncs ⟨(mkGrid 1 1 1).nx, (mkGrid 1 1 1).ny, fun i j =>
          if i = (((mkGrid 1 1 1).nx : ℤ) + -1).toNat ∧ j = (0 : ℤ).toNat
          then (mkGrid 1 1 1).val i j + add_prob (3 / 4) true
          else (mkGrid 1 1 1).val i j⟩ (add_prob (3 / 4) true) []
       if r1.2 then applyIncs r1.1 (add_prob (3 / 4) false) (check_cells 1 (-1, 0, 0) [0]).2
       else r1) := by
  have h := C9_negative_wraparound (3 / 4) 1 (mkGrid 1 1 1) (-1) 0 37 [] (-1, 0, 0) [0]
    (by decide) (by decide) (by decide) (by decide)
  refine ⟨h.1, h.2.2.2.2 ?_⟩
  rw [check_cells_eval_D]

/-- C5 (amended): construction allocates a `(W·res+1) × (H·res+1)` array
of zero log-odds, and `fetch_prob_map` immediately after construction
returns `1/2` at every cell PROVIDED the configured clamp interval
`[log_odds_min, log_odds_max]` contains `0`; with a clamp interval not
containing `0` the clipping moves the zero log-odds before the logistic
transform and the result differs from `1/2`. -/
theorem C5_fresh_grid_is_half (W H res : ℕ) (lmin lmax : ℝ)
    (h1 : lmin ≤ 0) (h2 : 0 ≤ lmax) :
    (mkGrid W H res).nx = W * res + 1 ∧
    (mkGrid W H res).ny = H * res + 1 ∧
    (∀ i j : ℕ, (mkGrid W H res).val i j = 0) ∧
    (∀ i j : ℕ, fetch_prob_map lmin lmax (mkGrid W H res) i j = 1 / 2) := by
  refine ⟨rfl, rfl, fun i j => rfl, fun i j => ?_⟩
  show 1 - 1 / (1 + Real.exp (clip 0 lmin lmax)) = 1 / 2
  rw [clip, max_eq_left h1, min_eq_left h2, Real.exp_zero]
  norm_num

/-- Witness for C5 (amended) with the clamp interval `[-10, 10]`. -/
theorem C5_fresh_grid_is_half_witness :
    fetch_prob_map (-10) 10 (mkGrid 1 1 1) 0 0 = 1 / 2 :=
  (C5_fresh_grid_is_half 1 1 1 (-10) 10 (by norm_num) (by norm_num)).2.2.2 0 0

/-- Counterexample to C5 as stated ("for every configuration"): with the
spec-legal clamp bounds `log_odds_min = 1 < log_odds_max = 2`, the
probability view of a freshly constructed grid is `1 - 1/(1+e)`, not
`1/2`. -/
theorem C5_counterexample :
    fetch_prob_map 1 2 (mkGrid 1 1 1) 0 0 ≠ 1 / 2 := by
  show 1 - 1 / (1 + Real.exp (clip 0 1 2)) ≠ 1 / 2
  have hc : clip (0 : ℝ) 1 2 = 1 := by
    rw [clip]
    norm_num
  rw [hc]
  have h1 : (1 : ℝ) < Real.exp 1 := by
    have := Real.exp_one_gt_d9
    linarith
  have hpos : (0 : ℝ) < 1 + Real.exp 1 := by positivity
  intro hcon
  field_simp at hcon
  linarith

/-- C6: the trajectory processor clamps the whole laser sequence
element-wise to `[0, max_range]` exactly once, before the update loop: a
reading equal to `max_range` (or any in-range reading) is unchanged, a
reading above `max_range` becomes `max_range`, and the processing run is
exactly a fold of `update` in which step `i` consumes the element-wise
clamped row `i` — clamping once up front coincides with clamping at each
consumption. -/
theorem C6_clamp_once_up_front (max_range : ℝ) (hm : 0 ≤ max_range) :
    (∀ z : ℝ, 0 ≤ z → z ≤ max_range → clip z 0 max_range = z) ∧
    (clip max_range 0 max_range = max_range) ∧
    (∀ z : ℝ, max_range < z → clip z 0 max_range = max_range) ∧
    (∀ (p : ℝ) (res : ℕ) (odometry : List (ℝ × ℝ × ℝ)) (laser : List (List ℝ)) (g : Grid),
      process_odometry_and_laser_data max_range p res odometry laser g =
        (odometry.zip laser).foldl
          (fun acc step =>
            if acc.2 then update p res acc.1 step.1 (step.2.map fun z => clip z 0 max_range)
            else acc) (g, true)) := by
  refine ⟨?_, ?_, ?_, ?_⟩
  · intro z hz0 hzm
    rw [clip, max_eq_left hz0, min_eq_left hzm]
  · rw [clip, max_eq_left hm, min_self]
  · intro z hz
    rw [clip, max_eq_left (le_trans hm (le_of_lt hz)), min_eq_right (le_of_lt hz)]
  · intro p res odometry laser g
    show (odometry.zip (laser.map fun row => row.map fun z => clip z 0 max_range)).foldl
        (fun acc step => if acc.2 then update p res acc.1 step.1 step.2 else acc) (g, true) = _
    rw [List.zip_map_right, List.foldl_map]
    simp only [Prod.map_fst, Prod.map_snd, id_eq]

/-- Witness for C6 at `max_range = 2`: the boundary reading `2` is kept,
the reading `3` is clipped to `2`. -/
theorem C6_clamp_once_up_front_witness :
    clip 2 0 2 = 2 ∧ clip 3 0 2 = 2 := by
  have h := C6_clamp_once_up_front 2 (by norm_num)
  exact ⟨h.2.1, h.2.2.1 3 (by norm_num)⟩

/-- The number of linspace samples is the requested count. -/
theorem linspace_length (a b : ℝ) (n : ℕ) : (linspace a b n).length = n := by
  match n with
  | 0 => rfl
  | 1 => rfl
  | (m + 2) =>
    show (((List.range (m + 2)).map
      fun k : ℕ => a + (b - a) * (k : ℝ) / ((m + 2 - 1 : ℕ) : ℝ))).length = m + 2
    rw [List.length_map, List.length_range]

/-- Sample `i` of `n ≥ 2` linspace samples. -/
theorem linspace_getElem (a b : ℝ) (n i : ℕ) (h2 : 1 < n) (hi : i < n) :
    (linspace a b n)[i]? = some (a + (b - a) * i / ((n - 1 : ℕ) : ℝ)) := by
  obtain ⟨m, rfl⟩ : ∃ m, n = m + 2 := ⟨n - 2, by omega⟩
  show (((List.range (m + 2)).map
    fun k : ℕ => a + (b - a) * (k : ℝ) / ((m + 2 - 1 : ℕ) : ℝ)))[i]? = _
  rw [List.getElem?_map, List.getElem?_range hi]
  rfl

/-- C8 (amended): `laser_sweep` returns one hit point per range reading;
for `N > 1` readings, point `i` is
`(x + r_i·cos(θ + a_i), y + r_i·sin(θ + a_i))` with the angles
`a_i = -π/2 + π·i/(N-1)` evenly spaced over `[-π/2, π/2]` inclusive of
both endpoints; for a single reading the angle used is `θ - π/2` (namely
`linspace(-π/2, π/2, 1) = [-π/2]`), NOT `θ` itself.  The function is pure
by construction. -/
theorem C8_laser_sweep_formula (xi : ℝ × ℝ × ℝ) (zi : List ℝ) :
    (laser_sweep xi zi).1.length = zi.length ∧
    (laser_sweep xi zi).2.length = zi.length ∧
    (∀ z : ℝ, laser_sweep xi [z] =
      ([xi.1 + z * Real.cos (xi.2.2 + -(Real.pi / 2))],
       [xi.2.1 + z * Real.sin (xi.2.2 + -(Real.pi / 2))])) ∧
    (1 < zi.length →
      ∀ i : ℕ, (hi : i < zi.length) →
        (laser_sweep xi zi).1[i]? =
          some (xi.1 + zi[i] * Real.cos (xi.2.2 +
            (-(Real.pi / 2) + Real.pi * i / ((zi.length - 1 : ℕ) : ℝ)))) ∧
        (laser_sweep xi zi).2[i]? =
          some (xi.2.1 + zi[i] * Real.sin (xi.2.2 +
            (-(Real.pi / 2) + Real.pi * i / ((zi.length - 1 : ℕ) : ℝ))))) := by
  have hzl : (zi.zip (linspace (-(Real.pi / 2)) (Real.pi / 2) zi.length)).length =
      zi.length := by
    rw [List.length_zip, linspace_length, min_self]
  refine ⟨?_, ?_, ?_, ?_⟩
  · show ((zi.zip (linspace (-(Real.pi / 2)) (Real.pi / 2) zi.length)).map _).length = _
    rw [List.length_map, hzl]
  · show ((zi.zip (linspace (-(Real.pi / 2)) (Real.pi / 2) zi.length)).map _).length = _
    rw [List.length_map, hzl]
  · intro z
    simp [laser_sweep, linspace]
  · intro hN i hi
    have hang : (linspace (-(Real.pi / 2)) (Real.pi / 2) zi.length)[i]? =
        some (-(Real.pi / 2) + Real.pi * i / ((zi.length - 1 : ℕ) : ℝ)) := by
      rw [linspace_getElem _ _ _ _ hN hi]
      congr 1
      ring
    have hzi : zi[i]? = some zi[i] := List.getElem?_eq_getElem hi
    have hpair : (zi.zip (linspace (-(Real.pi / 2)) (Real.pi / 2) zi.length))[i]? =
        some (zi[i], -(Real.pi / 2) + Real.pi * i / ((zi.length - 1 : ℕ) : ℝ)) := by
      rw [List.zip, List.getElem?_zipWith', hzi, hang]
      rfl
    constructor
    · show ((zi.zip (linspace (-(Real.pi / 2)) (Real.pi / 2) zi.length)).map _)[i]? = _
      rw [List.getElem?_map, hpair]
      rfl
    · show ((zi.zip (linspace (-(Real.pi / 2)) (Real.pi / 2) zi.length)).map _)[i]? = _
      rw [List.getElem?_map, hpair]
      rfl

/-- Witness for C8 (amended): the first of two beams from pose `(0,0,0)`
uses the evenly spaced angle `-π/2 + π·0/1`. -/
theorem C8_laser_sweep_formula_witness :
    (laser_sweep (0, 0, 0) [1, 5]).1[0]? =
      some ((0 : ℝ) + (1 : ℝ) * Real.cos ((0 : ℝ) +
        (-(Real.pi / 2) + Real.pi * ((0 : ℕ) : ℝ) / (((2 - 1 : ℕ)) : ℝ)))) :=
  ((C8_laser_sweep_formula (0, 0, 0) [1, 5]).2.2.2 (by norm_num) 0 (by norm_num)).1

/-- Counterexample to C8 as stated: for a single reading the claim says
the angle is `θ` itself, so pose `(0,0,0)` with ranges `[1]` would give
the point `(1, 0)`; the implementation computes `linspace(-π/2, π/2, 1) =
[-π/2]` and returns the point `(0, -1)` instead. -/
theorem C8_counterexample :
    laser_sweep (0, 0, 0) [1] ≠
      ([0 + 1 * Real.cos (0 + 0)], [0 + 1 * Real.sin (0 + 0)]) := by
  have hact : laser_sweep (0, 0, 0) [1] = ([0], [-1]) := by
    norm_num [laser_sweep, linspace, Real.cos_pi_div_two, Real.sin_pi_div_two]
  rw [hact]
  intro hcon
  have h2 := congrArg Prod.snd hcon
  norm_num [Real.sin_zero] at h2

theorem eq_singleton_of_length_one {α : Type} {l : List α} {a : α}
    (hl : l.length = 1) (ha : l.head? = some a) : l = [a] := by
  cases l with
  | nil => simp at hl
  | cons b t =>
    cases t with
    | nil =>
      simp only [List.head?_cons, Option.some_inj] at ha
      rw [ha]
    | cons c u => simp at hl

/-- C2: `bresenham_line` returns an ordered cell sequence whose first
element is the start cell and whose last element is the end cell, with
consecutive cells differing by at most 1 in each coordinate
(8-connected, no gaps); equal endpoints give the single-point sequence;
and the two concrete rasterizations named by the spec come out exactly as
stated. -/
theorem C2_bresenham_endpoints_connected (x0 y0 x1 y1 : ℤ) :
    (bresenham_line x0 y0 x1 y1).head? = some (x0, y0) ∧
    (bresenham_line x0 y0 x1 y1).getLast? = some (x1, y1) ∧
    List.Chain' adj (bresenham_line x0 y0 x1 y1) ∧
    ((x0, y0) = (x1, y1) → bresenham_line x0 y0 x1 y1 = [(x0, y0)]) ∧
    bresenham_line 0 0 5 0 = [(0, 0), (1, 0), (2, 0), (3, 0), (4, 0), (5, 0)] ∧
    bresenham_line 0 0 3 3 = [(0, 0), (1, 1), (2, 2), (3, 3)] := by
  obtain ⟨hhead, hlast, hchain, hlen⟩ := bres_main x0 y0 x1 y1
  refine ⟨hhead, hlast, hchain, ?_, ?_, ?_⟩
  · intro heq
    obtain ⟨hx, hy⟩ := Prod.mk.injEq .. ▸ heq
    have hone : (bresenham_line x0 y0 x1 y1).length = 1 := by
      rw [hlen, hx, hy]
      simp
    exact eq_singleton_of_length_one hone hhead
  · norm_num [bresenham_line, bresLoopX, bresLoopY]
  · norm_num [bresenham_line, bresLoopX, bresLoopY]

/-- Witness for C2: the degenerate hypothesis `c0 = c1` discharged at the
concrete cell `(7, -2)`. -/
theorem C2_bresenham_endpoints_connected_witness :
    bresenham_line 7 (-2) 7 (-2) = [(7, -2)] :=
  (C2_bresenham_endpoints_connected 7 (-2) 7 (-2)).2.2.2.1 rfl

/-- C10: `bresenham_line` terminates on every pair of integer endpoints
(it is a total function in this embedding, with fuel proved sufficient)
and returns exactly `max |x1-x0| |y1-y0| + 1` cells. -/
theorem C10_bresenham_length (x0 y0 x1 y1 : ℤ) :
    (bresenham_line x0 y0 x1 y1).length =
      max (x1 - x0).natAbs (y1 - y0).natAbs + 1 :=
  (bres_main x0 y0 x1 y1).2.2.2

/-- C1: `add_prob` returns `ln((1-p)/p)` for occupied evidence and
`ln(p/(1-p))` for free evidence (the inverted-from-textbook convention);
for `0 < p < 1` the two increments are exact negations of each other, so
an occupied increment followed by a free increment restores the prior
log-odds of a cell. -/
theorem C1_add_prob_inverted_convention (p : ℝ) (h0 : 0 < p) (h1 : p < 1) :
    add_prob p true = Real.log ((1 - p) / p) ∧
    add_prob p false = Real.log (p / (1 - p)) ∧
    add_prob p true = -add_prob p false ∧
    ∀ L : ℝ, L + add_prob p true + add_prob p false = L := by
  have hneg : add_prob p true = -add_prob p false := by
    show Real.log ((1 - p) / p) = -Real.log (p / (1 - p))
    rw [← Real.log_inv, inv_div]
  refine ⟨rfl, rfl, hneg, fun L => ?_⟩
  rw [hneg]
  ring

/-- Witness for C1 at the concrete base probability `p = 3/4`. -/
theorem C1_add_prob_inverted_convention_witness :
    (0 : ℝ) < 3 / 4 ∧ (3 : ℝ) / 4 < 1 ∧
    add_prob (3 / 4) true = -add_prob (3 / 4) false :=
  ⟨by norm_num, by norm_num,
    (C1_add_prob_inverted_convention (3 / 4) (by norm_num) (by norm_num)).2.2.1⟩

end LidarGrid
